import Mathlib

/-!
Verification of the specification of the portfolio-optimization data pipeline
(`financialmodels.py`) against a shallow embedding of its code.

The embedding models:
* `ProxyPool` (`__init__`, `remove_bad_proxies`, `random_proxy`);
* the paginated symbol-universe fetch `get_liquid_us_stocks`;
* the per-symbol series fetch `download_stock_data`;
* the staleness selection of `update_stock_data`;
* the monthly aggregation of `clean_stock_data`;
* the helper `interpolate_missing`.

Network effects are abstracted as explicit oracles (functions from attempt /
iteration numbers to outcomes); file-system state is passed explicitly.
Python floats appear only as prices and interpolation values; they are
modelled as rationals, and `np.log` is applied on top via `Real.log` in
theorem statements (the structural content — which ratio is logged, which
rows are kept — is independent of float rounding).
-/

namespace FinancialModels

/-! ## ProxyPool (financialmodels.py lines 13-79)

A proxy is modelled by the final URL string built in `__init__`.  scipy's
`stats.randint(0, n).rvs` draws uniformly from `{0, ..., n-1}`; we model one
draw by an arbitrary seed reduced mod `n`.  Calling `.rvs` of
`stats.randint(0, 0)` (empty support) raises a scipy domain `ValueError`
before any list indexing; that failure is modelled as `poolExhausted`. -/

structure ProxyPool where
  proxy_list : List String
  num_proxies : Nat
  deriving Repr, DecidableEq

inductive LoadError where
  /-- the Python `TypeError` from `list()` of the 0-d array that
  `np.loadtxt` returns for a one-line source (its squeeze semantics) -/
  | typeErrorZeroDim
  deriving Repr, DecidableEq

inductive PoolError where
  | poolExhausted
  | indexOutOfRange
  deriving Repr, DecidableEq

/-- The per-line transformation of `ProxyPool.__init__` (line 20):
`'http://' + ':'.join(x.split(':')[2:]) + '@' + ':'.join(x.split(':')[:2])`. -/
def formatProxy (x : String) : String :=
  let parts := x.splitOn ":"
  "http://" ++ ":".intercalate (parts.drop 2) ++ "@" ++ ":".intercalate (parts.take 2)

/-- `ProxyPool.__init__` (lines 15-25).  The source of the proxy list is a
text file read by `np.loadtxt(path, dtype=str)`, modelled as the list of its
non-empty lines (one whitespace-free token per line, the webshare format).
`np.loadtxt` on an empty input emits a warning and returns an empty 1-d
array — it does not raise; on a one-line input it squeezes the result to a
0-d array, and `list()` of a 0-d array raises `TypeError`, so construction
crashes for a single-proxy source; with two or more lines the
comprehensions on lines 20-21 accept any token and construction
succeeds. -/
def ProxyPool.load (lines : List String) : Except LoadError ProxyPool :=
  match lines with
  | [_] => .error .typeErrorZeroDim
  | _ =>
    let pl := lines.map formatProxy
    .ok { proxy_list := pl, num_proxies := pl.length }

/-- `ProxyPool.remove_bad_proxies` (lines 43-69), with the network outcome of
the identity-echo request abstracted as a health predicate on proxies: the
request through `proxy` succeeds iff `health proxy = true`. -/
def ProxyPool.remove_bad_proxies (p : ProxyPool) (health : String → Bool) : ProxyPool :=
  let working := p.proxy_list.filter health
  { proxy_list := working, num_proxies := working.length }

/-- Number of proxies removed by one `remove_bad_proxies` run
(`n_remove = n_start - self.num_proxies`, line 65). -/
def ProxyPool.num_removed (p : ProxyPool) (health : String → Bool) : Nat :=
  p.num_proxies - (p.remove_bad_proxies health).num_proxies

/-- One draw of `self.random_index`, i.e. `stats.randint(0, num_proxies).rvs()`:
uniform on `{0, ..., n-1}` for `n > 0` (modelled as `seed % n`), a scipy
domain error for `n = 0` (empty support), modelled as `poolExhausted`. -/
def randIndex (n : Nat) (seed : Nat) : Except PoolError Nat :=
  if n = 0 then .error .poolExhausted else .ok (seed % n)

/-- `ProxyPool.random_proxy` (lines 72-79): `self.proxy_list[self.random_index()]`.
A Python `IndexError` on the list access is modelled as `indexOutOfRange`. -/
def ProxyPool.random_proxy (p : ProxyPool) (seed : Nat) : Except PoolError String :=
  match randIndex p.num_proxies seed with
  | .error e => .error e
  | .ok i =>
    match p.proxy_list.get? i with
    | some pr => .ok pr
    | none => .error .indexOutOfRange

/-- A concrete two-proxy pool used as witness input. -/
def samplePool : ProxyPool :=
  ProxyPool.mk ["http://u:p@1.2.3.4:80", "http://u:p@5.6.7.8:80"] 2

/-! ## Paginated symbol-universe fetch (`get_liquid_us_stocks`, lines 158-224)

One iteration of the `while numfailures < failure_limit` loop issues
`requests.get` for the current offset.  The network is abstracted as an
oracle from the iteration number to the transport outcome: `none` models a
raised transport error (the bare `except` on line 198), `some r` models a
returned response with status code `r.status` and parsed table rows
`r.rows` (the `Symbol` column of `pd.read_html(res.content)[0]`).

The translation keeps the source's control flow exactly: after the
`try/except`, execution falls through to `if res.status_code == 200` with
whatever value the local variable `res` currently has — the fresh response
on transport success, the previous iteration's response after a transport
error, and unbound (a Python `NameError`) if no request ever succeeded.
`last_res` carries that local variable across iterations. -/

structure Resp where
  status : Nat
  rows : List String
  deriving Repr, DecidableEq

structure FetchState where
  offset : Nat
  numfailures : Nat
  pages : List (List String)
  last_res : Option Resp
  deriving Repr, DecidableEq

inductive FetchErr where
  /-- the Python `NameError` from reading `res` before any assignment -/
  | nameError
  /-- the `ValueError` raised by `pd.concat` on an empty list (line 217) -/
  | emptyConcat
  /-- modelling artifact: the supplied fuel ran out before the loop exited -/
  | fuelOut
  deriving Repr, DecidableEq

/-- Lines 196-213: one loop body, minus the final `time.sleep`. -/
def fetchStep (oracle : Nat → Option Resp) (count iter : Nat) (s : FetchState) :
    Except FetchErr FetchState :=
  let nf := if (oracle iter).isSome then s.numfailures else s.numfailures + 1
  let res := match oracle iter with
    | some r => some r
    | none => s.last_res
  match res with
  | none => .error .nameError
  | some r =>
    if r.status = 200 then
      if r.rows.length = 0 then
        .ok ⟨s.offset, nf + 1, s.pages, res⟩
      else
        .ok ⟨s.offset + count, 0, s.pages ++ [r.rows], res⟩
    else
      .ok ⟨s.offset, nf + 1, s.pages, res⟩

/-- The `while numfailures < failure_limit` loop (line 178), fuel-bounded.
The loop condition is tested before the fuel so that a state already at the
failure ceiling exits normally regardless of remaining fuel. -/
def fetchLoop (oracle : Nat → Option Resp) (count limit : Nat) :
    Nat → Nat → FetchState → Except FetchErr FetchState
  | 0, _, s => if s.numfailures < limit then .error .fuelOut else .ok s
  | fuel + 1, iter, s =>
    if s.numfailures < limit then
      match fetchStep oracle count iter s with
      | .error e => .error e
      | .ok s2 => fetchLoop oracle count limit fuel (iter + 1) s2
    else
      .ok s

def initialFetchState : FetchState := ⟨0, 0, [], none⟩

/-- Insertion into a `≤`-sorted list of strings. -/
def insertSorted (a : String) : List String → List String
  | [] => [a]
  | b :: t => if a ≤ b then a :: b :: t else b :: insertSorted a t

/-- `np.sort(df['Symbol'].unique())` (line 219): deduplicate, sort ascending. -/
def sortedUnique (l : List String) : List String :=
  l.dedup.foldr insertSorted []

/-- `get_liquid_us_stocks` (lines 158-224): run the paginated loop from
offset 0, then `pd.concat(df_list)` — which raises `ValueError` when no page
was ever recorded — and return the sorted deduplicated symbol column. -/
def get_liquid_us_stocks (oracle : Nat → Option Resp) (count limit fuel : Nat) :
    Except FetchErr (List String) :=
  match fetchLoop oracle count limit fuel 0 initialFetchState with
  | .error e => .error e
  | .ok s =>
    match s.pages with
    | [] => .error .emptyConcat
    | _ => .ok (sortedUnique s.pages.flatten)

/-- Oracle for a source whose every request raises a transport error. -/
def oracleDown : Nat → Option Resp := fun _ => none

/-- Oracle whose first request succeeds with one row and whose later
requests all raise transport errors. -/
def oracleFirstThenDown : Nat → Option Resp :=
  fun i => if i = 0 then some ⟨200, ["AAA"]⟩ else none

/-- Oracle for a source that always answers with a non-success status. -/
def oracleStatus500 : Nat → Option Resp := fun _ => some ⟨500, []⟩

/-! ## Per-symbol series fetch (`download_stock_data`, lines 226-256)

For one symbol, attempt `k` (made while `numfailures = k`) either succeeds —
`yf.Ticker(...).history(...)` returns and the artifact is written — or raises,
incrementing the counter.  The outcome of attempt `k` is abstracted as
`oracle k : Bool`. -/

inductive SymbolResult where
  | success (attempts : Nat)
  | permanentFailure
  deriving Repr, DecidableEq

/-- The inner `while (keepgoing==True) and (numfailures < failure_limit)`
loop (lines 245-254), fuel = `failure_limit - numfailures`. -/
def fetchGo (oracle : Nat → Bool) : Nat → Nat → SymbolResult
  | 0, _ => .permanentFailure
  | fuel + 1, c => if oracle c then .success c else fetchGo oracle fuel (c + 1)

/-- One symbol's bounded retry: start at `numfailures = 0`. -/
def fetchSeries (oracle : Nat → Bool) (limit : Nat) : SymbolResult :=
  fetchGo oracle limit 0

/-- `download_stock_data` (lines 239-256): the outer `for` loop visits every
requested symbol in order and runs that symbol's bounded retry. -/
def download_stock_data (symbols : List String) (oracle : String → Nat → Bool)
    (limit : Nat) : List (String × SymbolResult) :=
  symbols.map (fun s => (s, fetchSeries (oracle s) limit))

/-- Concrete attempt oracle: symbol `B` succeeds on its second attempt,
every other symbol always fails. -/
def sampleFetchOracle : String → Nat → Bool := fun s k => s == "B" && k == 1

/-! ## Staleness selection (`update_stock_data`, lines 258-292)

Timestamps are modelled in hours; `(date_today - mtime).days` — the
whole-day floor of the artifact age — is `(today - m) / 24`.  `mtime t` is
the modification time of `data/tickers/raw/{t}.csv`, `none` when the file
does not exist. -/

/-- `(date_today - pd.to_datetime(...fromtimestamp(getmtime(...)))).days`
(line 283), for an artifact modified at hour `m`, now hour `today ≥ m`. -/
def days_since_modified (today m : Nat) : Nat := (today - m) / 24

/-- The selection loop of `update_stock_data` (lines 277-287): keep the
tickers with a missing artifact or with
`days_since_modified > max_days_since_update`. -/
def update_stock_data_selection (univ : List String)
    (mtime : String → Option Nat) (today max_days : Nat) : List String :=
  univ.filter fun t =>
    match mtime t with
    | none => true
    | some m => decide (days_since_modified today m > max_days)

/-- Concrete artifact store for the C5 witness: `X` has no artifact, `Y` an
artifact from hour 0, `Z` an artifact exactly 7 whole days old at hour 720. -/
def sampleMtime : String → Option Nat :=
  fun t => if t = "X" then none else if t = "Y" then some 0 else some 552

/-- Whether an `Except` value is a success. -/
def exceptOk {ε α : Type _} : Except ε α → Bool
  | .ok _ => true
  | .error _ => false

/-! ## Monthly aggregation (`clean_stock_data`, lines 294-335)

A raw artifact row carries the calendar date (the time of day is truncated
on line 321) plus the `Close` price and `Volume`, as rationals.
`df.resample('M', on='Date')` bins the rows by calendar month, producing one
output row for every month from the series' first month to its last —
months with no observation get NaN, modelled as `none` — and `agg 'last'`
keeps each bin's last row (last chronological row for a date-sorted
artifact, which is what `yfinance` writes). -/

structure RawRow where
  y : Nat
  m : Nat
  d : Nat
  close : ℚ
  volume : ℚ
  deriving Repr, DecidableEq

/-- The calendar month of a row as an absolute month number
(`df['Date'].dt.to_period('M')`). -/
def monthIndex (r : RawRow) : Nat := r.y * 12 + (r.m - 1)

/-- A key ordering rows chronologically (year, then month, then day). -/
def dateKey (r : RawRow) : Nat := (r.y * 12 + (r.m - 1)) * 32 + r.d

def minMonth : List RawRow → Nat
  | [] => 0
  | [r] => monthIndex r
  | r :: rest => Nat.min (monthIndex r) (minMonth rest)

def maxMonth : List RawRow → Nat
  | [] => 0
  | [r] => monthIndex r
  | r :: rest => Nat.max (monthIndex r) (maxMonth rest)

/-- One resampled month: the bin's month number and the `'last'`-aggregated
price and volume (`none` = NaN for an empty bin). -/
structure MonthObs where
  idx : Nat
  price : Option ℚ
  volume : Option ℚ
  deriving Repr, DecidableEq

/-- The last row (in artifact order) falling in month bin `idx`. -/
def lastInMonth (rows : List RawRow) (idx : Nat) : Option RawRow :=
  (rows.filter (fun r => monthIndex r == idx)).getLast?

/-- The resampled observation for month bin `idx`: the last row of the bin,
or NaN price/volume for an empty bin. -/
def monthBin (rows : List RawRow) (idx : Nat) : MonthObs :=
  match lastInMonth rows idx with
  | some rr => ⟨idx, some rr.close, some rr.volume⟩
  | none => ⟨idx, none, none⟩

/-- `df.resample('M', on='Date').agg({'Price':'last','Volume':'last'})`
(line 323, before `.iloc[:-1,]`): one bin per month from the series' first
month to its last. -/
def resampleM (rows : List RawRow) : List MonthObs :=
  match rows with
  | [] => []
  | _ :: _ =>
    (List.range (maxMonth rows - minMonth rows + 1)).map (fun k =>
      monthBin rows (minMonth rows + k))

/-- One row of the consolidated output.  `ret` is the ratio
`price_t / price_{t-1}` fed to `np.log` on line 326 (`none` models the NaN
of the first month and of months with a missing price); the monthly log
return itself is `ret.map Real.log`. -/
structure CleanRec where
  symbol : String
  period : Nat
  price : Option ℚ
  volume : Option ℚ
  ret : Option ℚ
  deriving Repr, DecidableEq

/-- The ratio `p_t / p_{t-1}` fed to `np.log`, with NaN (`none`)
propagation. -/
def retOf : Option ℚ → Option ℚ → Option ℚ
  | some a, some b => some (b / a)
  | _, _ => none

/-- Lines 324-327: attach the Monthly Log Return column — NaN for the first
row, `p_t / p_{t-1}` for the rest, with NaN propagating from missing
prices.  `prev` is the previous row's price. -/
def buildRecs (s : String) : Option ℚ → List MonthObs → List CleanRec
  | _, [] => []
  | prev, mo :: rest =>
    { symbol := s, period := mo.idx, price := mo.price, volume := mo.volume,
      ret := retOf prev mo.price } :: buildRecs s mo.price rest

inductive CleanError where
  /-- the `ValueError` of line 326: `np.concatenate(([np.nan], ...))` is a
  column of length ≥ 1, and assigning it to the 0-row frame left by
  `.iloc[:-1,]` (an artifact spanning at most one calendar month) raises a
  length-mismatch `ValueError` -/
  | lengthMismatch
  /-- the `ValueError` raised by `pd.concat` on an empty list (line 331) -/
  | emptyConcat
  deriving Repr, DecidableEq

/-- The per-symbol body of `clean_stock_data` (lines 319-327): resample to
months, drop the final (possibly partial) month (`.iloc[:-1,]`), then
attach the return column.  When the dropped frame has zero rows — an
artifact with all observations in one calendar month, or an empty artifact
— line 326 assigns a length-1 column to a 0-row frame and raises. -/
def aggregateSymbol (s : String) (rows : List RawRow) :
    Except CleanError (List CleanRec) :=
  match (resampleM rows).dropLast with
  | [] => .error .lengthMismatch
  | mo :: rest => .ok (buildRecs s none (mo :: rest))

/-- The symbol loop of `clean_stock_data` (lines 314-329): visit the
universe in order, skip tickers whose raw artifact file does not exist
(line 318), aggregate the rest; a `ValueError` inside one iteration aborts
the whole run. -/
def cleanLoop (store : String → Option (List RawRow)) :
    List String → Except CleanError (List (List CleanRec))
  | [] => .ok []
  | t :: rest =>
    match store t with
    | none => cleanLoop store rest
    | some rows =>
      match aggregateSymbol t rows with
      | .error e => .error e
      | .ok recs =>
        match cleanLoop store rest with
        | .error e => .error e
        | .ok dfs => .ok (recs :: dfs)

/-- `clean_stock_data` (lines 294-335): run the symbol loop, then
`pd.concat` the per-ticker frames — which raises when the list of frames is
empty. -/
def clean_stock_data (univ : List String)
    (store : String → Option (List RawRow)) : Except CleanError (List CleanRec) :=
  match cleanLoop store univ with
  | .error e => .error e
  | .ok [] => .error .emptyConcat
  | .ok (df :: dfs) => .ok ((df :: dfs).flatten)

/-- An artifact store with no artifacts at all. -/
def emptyStore : String → Option (List RawRow) := fun _ => none

/-- A one-symbol artifact used in witnesses: four trading days covering
January–March 2020 plus a partial April, prices 100, 110, 99, 120. -/
def sampleRows : List RawRow :=
  [⟨2020, 1, 10, 95, 5⟩, ⟨2020, 1, 31, 100, 10⟩, ⟨2020, 2, 28, 110, 11⟩,
   ⟨2020, 3, 31, 99, 9⟩, ⟨2020, 4, 5, 120, 12⟩]

/-- An artifact store holding only `sampleRows` under the symbol `A`. -/
def sampleStore : String → Option (List RawRow) :=
  fun t => if t = "A" then some sampleRows else none

/-- An artifact whose two observations fall in the same calendar month. -/
def oneMonthRows : List RawRow :=
  [⟨2020, 1, 10, 100, 5⟩, ⟨2020, 1, 20, 101, 6⟩]

/-! ## interpolate_missing (lines 117-134)

`pd.to_numeric(errors='coerce')` maps numeric cells to their value and
everything else (NaN cells, non-numeric strings) to NaN.  Cells are
modelled by `PdVal`, with `txt` standing for a string that does not parse
as a number (numeric strings are modelled as `num` directly).
`scipy.interpolate.interp1d` is linear interpolation with
`bounds_error=True`: it raises at construction when fewer than two data
points are given and at evaluation when the query lies outside the data
range; at a knot it returns the knot value. -/

inductive PdVal where
  | num (q : ℚ)
  | nan
  | txt (s : String)
  deriving Repr, DecidableEq

/-- `pd.to_numeric(errors='coerce')` on one cell. -/
def toNumeric : PdVal → Option ℚ
  | .num q => some q
  | .nan => none
  | .txt _ => none

/-- Replace every non-numeric cell by an explicit NaN. -/
def coerceToNan (v : PdVal) : PdVal :=
  match toNumeric v with
  | some q => .num q
  | none => .nan

inductive InterpError where
  /-- the `ValueError` of line 129: missing/non-numeric independent values -/
  | missingX
  /-- `interp1d` construction: fewer than two data points -/
  | tooFewPoints
  /-- `bounds_error`: query below the first knot -/
  | belowRange
  /-- `bounds_error`: query above the last knot -/
  | aboveRange
  deriving Repr, DecidableEq

/-- The data points `(x[m], y[m])` of line 132: aligned pairs where the
dependent value is present. -/
def knownPts : List ℚ → List (Option ℚ) → List (ℚ × ℚ)
  | [], _ => []
  | _ :: _, [] => []
  | a :: as, b :: bs =>
    match b with
    | some q => (a, q) :: knownPts as bs
    | none => knownPts as bs

/-- The linear segment through `(x0, y0)` and `(x1, y1)`, evaluated at
`xv`. -/
def interpSeg (x0 y0 x1 y1 xv : ℚ) : ℚ := y0 + (y1 - y0) * (xv - x0) / (x1 - x0)

/-- Walk the knots to the segment containing `xv` (which satisfies
`x0 ≤ xv` on entry); past the last knot is a bounds error. -/
def interpGo (x0 y0 : ℚ) : List (ℚ × ℚ) → ℚ → Except InterpError ℚ
  | [], _ => .error .aboveRange
  | (x1, y1) :: rest, xv =>
    if xv ≤ x1 then .ok (interpSeg x0 y0 x1 y1 xv)
    else interpGo x1 y1 rest xv

/-- `interp1d(x[m], y[m])` evaluated at one point, `bounds_error=True`. -/
def interpAt (pts : List (ℚ × ℚ)) (xv : ℚ) : Except InterpError ℚ :=
  match pts with
  | [] => .error .tooFewPoints
  | (x0, y0) :: rest =>
    if xv < x0 then .error .belowRange
    else interpGo x0 y0 rest xv

/-- `interpolate_missing` (lines 117-134): coerce both series to numeric,
raise when the independent variable has missing or non-numeric entries,
build the known points, construct the interpolant (requiring two data
points) and evaluate it at every independent value. -/
def interpolate_missing (x y : List PdVal) : Except InterpError (List ℚ) :=
  if (x.map toNumeric).any (fun o => o.isNone) then .error .missingX
  else
    let xs := x.filterMap toNumeric
    let pts := knownPts xs (y.map toNumeric)
    if pts.length < 2 then .error .tooFewPoints
    else xs.mapM (interpAt pts)

/-- Concrete C10 witness input: complete numeric x-axis. -/
def sampleInterpX : List PdVal := [.num 1, .num 2, .num 3]

/-- Concrete C10 witness input: the first dependent value is missing. -/
def sampleInterpY : List PdVal := [.nan, .num 12, .num 13]

/-! ## Claims C3, C7, C8 -/

/-- C3: for every pool state satisfying the pool invariant
(`num_proxies` equals the length of `proxy_list`, which `load` and
`remove_bad_proxies` both establish), `random_proxy` on an empty membership
fails with `poolExhausted` — never with an out-of-range index access — and on
a non-empty membership returns an element of the current membership. -/
theorem random_proxy_spec (p : ProxyPool)
    (hinv : p.num_proxies = p.proxy_list.length) :
    (p.proxy_list = [] → ∀ seed, p.random_proxy seed = .error .poolExhausted) ∧
    (∀ seed, p.random_proxy seed ≠ .error .indexOutOfRange) ∧
    (p.proxy_list ≠ [] → ∀ seed, ∃ pr, p.random_proxy seed = .ok pr ∧ pr ∈ p.proxy_list) ∧
    (∀ lines q, ProxyPool.load lines = .ok q → q.num_proxies = q.proxy_list.length) ∧
    (∀ health, (p.remove_bad_proxies health).num_proxies =
      (p.remove_bad_proxies health).proxy_list.length) := by
  refine ⟨?_, ?_, ?_, ?_, ?_⟩
  · intro hnil seed
    simp [ProxyPool.random_proxy, randIndex, hinv, hnil]
  · intro seed
    by_cases hnil : p.proxy_list = []
    · simp [ProxyPool.random_proxy, randIndex, hinv, hnil]
    · have hlen : 0 < p.proxy_list.length := List.length_pos.mpr hnil
      have hne : p.num_proxies ≠ 0 := by omega
      have hmod : seed % p.num_proxies < p.proxy_list.length := by
        rw [hinv] at hne ⊢
        exact Nat.mod_lt _ (Nat.pos_of_ne_zero hne)
      simp only [ProxyPool.random_proxy, randIndex, hne, if_false]
      rw [List.get?_eq_get hmod]
      simp
  · intro hnil seed
    have hlen : 0 < p.proxy_list.length := List.length_pos.mpr hnil
    have hne : p.num_proxies ≠ 0 := by omega
    have hmod : seed % p.num_proxies < p.proxy_list.length := by
      rw [hinv] at hne ⊢
      exact Nat.mod_lt _ (Nat.pos_of_ne_zero hne)
    refine ⟨p.proxy_list.get ⟨seed % p.num_proxies, hmod⟩, ?_, List.get_mem _ _ _⟩
    simp only [ProxyPool.random_proxy, randIndex, hne, if_false]
    rw [List.get?_eq_get hmod]
  · intro lines q hq
    rcases lines with _ | ⟨l1, _ | ⟨l2, rest⟩⟩
    · have h0 : ProxyPool.load ([] : List String) = .ok (ProxyPool.mk [] 0) := rfl
      rw [h0] at hq
      injection hq with h
      subst h
      rfl
    · exact absurd hq (by simp [ProxyPool.load])
    · have h0 : ProxyPool.load (l1 :: l2 :: rest) =
          .ok (ProxyPool.mk ((l1 :: l2 :: rest).map formatProxy)
            ((l1 :: l2 :: rest).map formatProxy).length) := rfl
      rw [h0] at hq
      injection hq with h
      subst h
      rfl
  · intro health
    rfl

/-- Witness for C3 at a concrete two-proxy pool. -/
theorem random_proxy_spec_witness :
    samplePool.num_proxies = samplePool.proxy_list.length ∧
    (∀ seed, samplePool.random_proxy seed ≠ .error .indexOutOfRange) :=
  ⟨by decide, (random_proxy_spec samplePool (by decide)).2.1⟩

/-- C8 counterexample: constructing a `ProxyPool` from an empty proxy-list
source does not fail with a `ConfigError` — it succeeds and produces a pool
(with zero proxies). -/
theorem load_empty_source_succeeds :
    ProxyPool.load [] = .ok (ProxyPool.mk [] 0) ∧
    exceptOk (ProxyPool.load []) = true :=
  ⟨rfl, rfl⟩

/-- C8 amended: the constructor raises no `ConfigError` for an empty or
malformed source — an empty source yields a pool with zero proxies, and any
source of two or more lines yields a pool with every line (well-formed or
not) mangled into a proxy URL; the only construction failure is the
one-line source, which crashes with numpy's 0-d `TypeError`, unrelated to
malformedness. -/
theorem load_spec :
    ProxyPool.load [] = .ok (ProxyPool.mk [] 0) ∧
    (∀ line : String, ProxyPool.load [line] = .error .typeErrorZeroDim) ∧
    (∀ (l1 l2 : String) (rest : List String),
      ProxyPool.load (l1 :: l2 :: rest) =
        .ok (ProxyPool.mk ((l1 :: l2 :: rest).map formatProxy)
          ((l1 :: l2 :: rest).map formatProxy).length)) :=
  ⟨rfl, fun _ => rfl, fun _ _ _ => rfl⟩

/-- C7: `remove_bad_proxies` is idempotent — with each proxy's health
unchanged, a second run removes zero additional proxies and leaves the pool
unchanged. -/
theorem remove_bad_proxies_idempotent (p : ProxyPool) (health : String → Bool) :
    (p.remove_bad_proxies health).remove_bad_proxies health =
      p.remove_bad_proxies health ∧
    (p.remove_bad_proxies health).num_removed health = 0 := by
  have hfilter : ((p.proxy_list.filter health).filter health) =
      p.proxy_list.filter health := by
    induction p.proxy_list with
    | nil => rfl
    | cons a t ih => by_cases h : health a <;> simp [List.filter_cons, h, ih]
  constructor
  · simp [ProxyPool.remove_bad_proxies, hfilter]
  · simp [ProxyPool.num_removed, ProxyPool.remove_bad_proxies, hfilter]

/-! ## Claims C1, C2 -/

/-- C1: the claim says a transport-error iteration increments the failure
counter, holds the offset and records no rows.  The code instead falls
through to the status check with a stale or unbound `res`: at a concrete
failing input, (i) a transport error on the very first iteration crashes
with a `NameError`, and (ii) a transport error on the iteration after a
successful page re-records the previous page, advances the offset and
resets the failure counter to zero. -/
theorem transport_error_fallthrough :
    fetchStep oracleDown 250 0 initialFetchState = .error .nameError ∧
    fetchStep oracleFirstThenDown 250 0 initialFetchState =
      .ok ⟨250, 0, [["AAA"]], some ⟨200, ["AAA"]⟩⟩ ∧
    fetchStep oracleFirstThenDown 250 1 ⟨250, 0, [["AAA"]], some ⟨200, ["AAA"]⟩⟩ =
      .ok ⟨500, 0, [["AAA"], ["AAA"]], some ⟨200, ["AAA"]⟩⟩ := by
  refine ⟨rfl, rfl, rfl⟩

/-- C2 counterexample: with every first-page request failing (non-success
status) and `failure_ceiling = 5`, the fetch does not return an empty
universe — `pd.concat` of the empty page list raises. -/
theorem first_page_failure_raises :
    get_liquid_us_stocks oracleStatus500 250 5 6 = .error .emptyConcat ∧
    exceptOk (get_liquid_us_stocks oracleStatus500 250 5 6) = false :=
  ⟨rfl, rfl⟩

/-- Helper for C2: under an always-failing oracle the loop terminates with
its recorded pages unchanged. -/
theorem fetchLoop_allfail (oracle : Nat → Option Resp) (count limit : Nat)
    (hfail : ∀ k, ∃ r, oracle k = some r ∧ r.status ≠ 200) :
    ∀ fuel iter s, limit ≤ s.numfailures + fuel →
      ∃ s2, fetchLoop oracle count limit fuel iter s = .ok s2 ∧ s2.pages = s.pages := by
  intro fuel
  induction fuel with
  | zero =>
    intro iter s hle
    have hnot : ¬ s.numfailures < limit := by omega
    exact ⟨s, by simp [fetchLoop, hnot], rfl⟩
  | succ fuel ih =>
    intro iter s hle
    by_cases hlt : s.numfailures < limit
    · obtain ⟨r, hr, hstatus⟩ := hfail iter
      have hstep : fetchStep oracle count iter s =
          .ok ⟨s.offset, s.numfailures + 1, s.pages, some r⟩ := by
        simp [fetchStep, hr, hstatus]
      obtain ⟨s2, hs2, hpages⟩ :=
        ih (iter + 1) ⟨s.offset, s.numfailures + 1, s.pages, some r⟩ (by simp; omega)
      exact ⟨s2, by simp [fetchLoop, hlt, hstep, hs2], hpages⟩
    · exact ⟨s, by simp [fetchLoop, hlt], rfl⟩

/-- C2 amended: if every request for the first page fails (here: always a
non-success status) until the counter reaches `failure_ceiling`, the loop
terminates with no recorded pages, and the fetch then raises (the
`pd.concat` of zero frames) instead of returning an empty universe. -/
theorem first_page_always_failing (oracle : Nat → Option Resp)
    (count limit fuel : Nat)
    (hfail : ∀ k, ∃ r, oracle k = some r ∧ r.status ≠ 200)
    (hfuel : limit ≤ fuel) :
    get_liquid_us_stocks oracle count limit fuel = .error .emptyConcat := by
  obtain ⟨s2, hs2, hpages⟩ :=
    fetchLoop_allfail oracle count limit hfail fuel 0 initialFetchState
      (by simpa [initialFetchState] using hfuel)
  have hempty : s2.pages = [] := by simpa [initialFetchState] using hpages
  simp [get_liquid_us_stocks, hs2, hempty]

/-- Witness for C2's amended theorem at the concrete always-500 oracle. -/
theorem first_page_always_failing_witness :
    (∀ k, ∃ r, oracleStatus500 k = some r ∧ r.status ≠ 200) ∧ (5 : Nat) ≤ 5 ∧
    get_liquid_us_stocks oracleStatus500 250 5 5 = .error .emptyConcat :=
  ⟨fun _ => ⟨⟨500, []⟩, rfl, by decide⟩, by decide,
   first_page_always_failing oracleStatus500 250 5 5
     (fun _ => ⟨⟨500, []⟩, rfl, by decide⟩) (by decide)⟩

/-! ## Claims C5, C6 -/

/-- Helper: where `fetchGo` succeeds. -/
theorem fetchGo_success_iff (f : Nat → Bool) :
    ∀ fuel c k, fetchGo f fuel c = .success k ↔
      (c ≤ k ∧ k < c + fuel ∧ f k = true ∧ ∀ j, c ≤ j → j < k → f j = false) := by
  intro fuel
  induction fuel with
  | zero =>
    intro c k
    constructor
    · intro h
      exact absurd h (by simp [fetchGo])
    · rintro ⟨h1, h2, -⟩
      exact absurd h1 (by omega)
  | succ fuel ih =>
    intro c k
    show (if f c then SymbolResult.success c else fetchGo f fuel (c + 1)) = .success k ↔ _
    by_cases hc : f c = true
    · rw [if_pos hc]
      constructor
      · intro h
        have hk : c = k := by
          injection h
        subst hk
        exact ⟨le_refl _, by omega, hc,
               fun j h1 h2 => absurd (lt_of_le_of_lt h1 h2) (lt_irrefl _)⟩
      · rintro ⟨h1, h2, h3, h4⟩
        by_cases hkc : k = c
        · subst hkc
          rfl
        · have hfc : f c = false := h4 c (le_refl _) (by omega)
          rw [hc] at hfc
          exact absurd hfc (by simp)
    · rw [if_neg hc]
      have hc' : f c = false := by
        cases h : f c
        · rfl
        · exact absurd h hc
      rw [ih (c + 1) k]
      constructor
      · rintro ⟨h1, h2, h3, h4⟩
        exact ⟨by omega, by omega, h3, fun j hj1 hj2 => by
          by_cases hjc : j = c
          · subst hjc
            exact hc'
          · exact h4 j (by omega) hj2⟩
      · rintro ⟨h1, h2, h3, h4⟩
        have hkc : k ≠ c := fun h => by
          subst h
          rw [h3] at hc'
          exact absurd hc' (by simp)
        exact ⟨by omega, by omega, h3, fun j hj1 hj2 => h4 j (by omega) hj2⟩

/-- Helper: where `fetchGo` reports permanent failure. -/
theorem fetchGo_permfail_iff (f : Nat → Bool) :
    ∀ fuel c, fetchGo f fuel c = .permanentFailure ↔
      (∀ j, c ≤ j → j < c + fuel → f j = false) := by
  intro fuel
  induction fuel with
  | zero =>
    intro c
    constructor
    · intro _ j h1 h2
      exact absurd h2 (by omega)
    · intro _
      rfl
  | succ fuel ih =>
    intro c
    show (if f c then SymbolResult.success c else fetchGo f fuel (c + 1)) =
        .permanentFailure ↔ _
    by_cases hc : f c = true
    · rw [if_pos hc]
      constructor
      · intro h
        exact absurd h (by simp)
      · intro h
        have hfc := h c (le_refl _) (by omega)
        rw [hc] at hfc
        exact absurd hfc (by simp)
    · rw [if_neg hc]
      have hc' : f c = false := by
        cases h : f c
        · rfl
        · exact absurd h hc
      rw [ih (c + 1)]
      constructor
      · intro h j h1 h2
        by_cases hjc : j = c
        · subst hjc
          exact hc'
        · exact h j (by omega) (by omega)
      · intro h j h1 h2
        exact h j (by omega) (by omega)

/-- C6: `download_stock_data` visits every requested symbol — the result
list pairs each symbol, in order, with the outcome of its own bounded
retry, so one symbol's permanent failure cannot prevent the others — and a
symbol's retry succeeds exactly at its first successful attempt below
`failure_ceiling`, reporting permanent failure exactly when its first
`failure_ceiling` attempts all fail. -/
theorem download_stock_data_spec (symbols : List String)
    (oracle : String → Nat → Bool) (limit : Nat) :
    (download_stock_data symbols oracle limit).length = symbols.length ∧
    (∀ i : Nat, (download_stock_data symbols oracle limit)[i]? =
      (symbols[i]?).map (fun s => (s, fetchSeries (oracle s) limit))) ∧
    (∀ f : Nat → Bool, ∀ k, fetchSeries f limit = .success k ↔
      (k < limit ∧ f k = true ∧ ∀ j, j < k → f j = false)) ∧
    (∀ f : Nat → Bool, fetchSeries f limit = .permanentFailure ↔
      (∀ j, j < limit → f j = false)) := by
  refine ⟨by simp [download_stock_data], ?_, ?_, ?_⟩
  · intro i
    simp [download_stock_data, List.getElem?_map]
  · intro f k
    rw [fetchSeries, fetchGo_success_iff f limit 0 k]
    constructor
    · rintro ⟨-, h2, h3, h4⟩
      exact ⟨by omega, h3, fun j hj => h4 j (Nat.zero_le _) hj⟩
    · rintro ⟨h1, h2, h3⟩
      exact ⟨Nat.zero_le _, by omega, h2, fun j _ hj => h3 j hj⟩
  · intro f
    rw [fetchSeries, fetchGo_permfail_iff f limit 0]
    exact ⟨fun h j hj => h j (Nat.zero_le _) (by omega),
           fun h j _ hj => h j (by omega)⟩

/-- Witness for C6: two symbols, `A` permanently failing, `B` succeeding on
attempt 1 — both present in the result. -/
theorem download_stock_data_spec_witness :
    (download_stock_data ["A", "B"] sampleFetchOracle 3).length =
      (["A", "B"] : List String).length ∧
    (fetchSeries (sampleFetchOracle "A") 3 = .permanentFailure ↔
      (∀ j, j < 3 → sampleFetchOracle "A" j = false)) :=
  ⟨(download_stock_data_spec ["A", "B"] sampleFetchOracle 3).1,
   (download_stock_data_spec ["A", "B"] sampleFetchOracle 3).2.2.2
     (sampleFetchOracle "A")⟩

/-- C5: the refresh scheduler selects exactly the universe symbols with a
missing artifact or an artifact whose age in whole days strictly exceeds
`max_days_since_update`; an artifact exactly `max_days_since_update` whole
days old is not selected. -/
theorem update_stock_data_selection_spec (univ : List String)
    (mtime : String → Option Nat) (today max_days : Nat) :
    (∀ t, t ∈ update_stock_data_selection univ mtime today max_days ↔
      (t ∈ univ ∧ (mtime t = none ∨
        ∃ m, mtime t = some m ∧ days_since_modified today m > max_days))) ∧
    (∀ t m, t ∈ univ → mtime t = some m → today - m = 24 * max_days →
      t ∉ update_stock_data_selection univ mtime today max_days) := by
  have hmem : ∀ t, t ∈ update_stock_data_selection univ mtime today max_days ↔
      (t ∈ univ ∧ (mtime t = none ∨
        ∃ m, mtime t = some m ∧ days_since_modified today m > max_days)) := by
    intro t
    rw [update_stock_data_selection, List.mem_filter]
    constructor
    · rintro ⟨h1, h2⟩
      refine ⟨h1, ?_⟩
      cases hmt : mtime t with
      | none => exact Or.inl rfl
      | some m =>
        rw [hmt] at h2
        simp only [decide_eq_true_eq] at h2
        exact Or.inr ⟨m, rfl, h2⟩
    · rintro ⟨h1, h2⟩
      refine ⟨h1, ?_⟩
      rcases h2 with hnone | ⟨m, hm, hgt⟩
      · rw [hnone]
      · rw [hm]
        simpa using hgt
  refine ⟨hmem, ?_⟩
  intro t m hu hm hage h
  rw [hmem t] at h
  rcases h.2 with hnone | ⟨m2, hm2, hgt⟩
  · rw [hm] at hnone
    exact Option.noConfusion hnone
  · rw [hm] at hm2
    have hmm : m2 = m := by
      cases hm2
      rfl
    subst hmm
    rw [days_since_modified, hage] at hgt
    omega

/-- Witness for C5: at hour 720 with a 7-day ceiling, the symbol `Z`, whose
artifact is exactly 7 whole days old, is not selected. -/
theorem update_stock_data_selection_spec_witness :
    (update_stock_data_selection ["X", "Y", "Z"] sampleMtime 720 7).contains "Z" = false := by
  have h := (update_stock_data_selection_spec ["X", "Y", "Z"] sampleMtime 720 7).2
    "Z" 552 (by decide) (by decide) (by decide)
  revert h
  decide

/-! ## Claim C4 -/

theorem monthBin_idx (rows : List RawRow) (j : Nat) : (monthBin rows j).idx = j := by
  cases h : lastInMonth rows j <;> simp [monthBin, h]

theorem monthBin_of_last (rows : List RawRow) (j : Nat) (rr : RawRow)
    (h : lastInMonth rows j = some rr) :
    monthBin rows j = ⟨j, some rr.close, some rr.volume⟩ := by
  simp [monthBin, h]

theorem buildRecs_length (s : String) :
    ∀ (p : Option ℚ) (ms : List MonthObs), (buildRecs s p ms).length = ms.length := by
  intro p ms
  induction ms generalizing p with
  | nil => rfl
  | cons mo rest ih => simp [buildRecs, ih]

theorem buildRecs_mem (s : String) :
    ∀ (p : Option ℚ) (ms : List MonthObs) (rec : CleanRec), rec ∈ buildRecs s p ms →
      ∃ mo ∈ ms, rec.period = mo.idx ∧ rec.price = mo.price ∧ rec.volume = mo.volume := by
  intro p ms
  induction ms generalizing p with
  | nil =>
    intro rec h
    exact absurd h (List.not_mem_nil _)
  | cons mo rest ih =>
    intro rec h
    rcases List.mem_cons.mp h with h1 | h2
    · exact ⟨mo, List.mem_cons_self _ _, by rw [h1], by rw [h1], by rw [h1]⟩
    · obtain ⟨mo2, hmem, h3⟩ := ih mo.price rec h2
      exact ⟨mo2, List.mem_cons_of_mem _ hmem, h3⟩

theorem buildRecs_price (s : String) :
    ∀ (p : Option ℚ) (ms : List MonthObs) (i : Nat),
      ((buildRecs s p ms)[i]?).map CleanRec.price = (ms[i]?).map MonthObs.price := by
  intro p ms
  induction ms generalizing p with
  | nil => intro i; rfl
  | cons mo rest ih =>
    intro i
    cases i with
    | zero => simp [buildRecs]
    | succ i => simpa [buildRecs] using ih mo.price i

theorem buildRecs_succ (s : String) :
    ∀ (ms : List MonthObs) (i : Nat) (p : Option ℚ) (mo1 mo2 : MonthObs),
      ms[i]? = some mo1 → ms[i + 1]? = some mo2 →
      (buildRecs s p ms)[i + 1]? =
        some ⟨s, mo2.idx, mo2.price, mo2.volume, retOf mo1.price mo2.price⟩ := by
  intro ms
  induction ms with
  | nil =>
    intro i p mo1 mo2 h1 _
    exact absurd h1 (by simp)
  | cons mo rest ih =>
    intro i p mo1 mo2 h1 h2
    cases i with
    | zero =>
      have hmo : mo = mo1 := by simpa using h1
      subst hmo
      cases rest with
      | nil => exact absurd h2 (by simp)
      | cons mo2b rest2 =>
        have hmo2 : mo2b = mo2 := by simpa using h2
        subst hmo2
        simp [buildRecs]
    | succ i =>
      have h1b : rest[i]? = some mo1 := by simpa using h1
      have h2b : rest[i + 1]? = some mo2 := by simpa using h2
      simpa [buildRecs] using ih (i) mo.price mo1 mo2 h1b h2b

theorem resampleM_dropLast (rows : List RawRow) (hne : rows ≠ []) :
    (resampleM rows).dropLast =
      (List.range (maxMonth rows - minMonth rows)).map
        (fun k => monthBin rows (minMonth rows + k)) := by
  have hres : resampleM rows =
      (List.range (maxMonth rows - minMonth rows + 1)).map
        (fun k => monthBin rows (minMonth rows + k)) := by
    cases rows with
    | nil => exact absurd rfl hne
    | cons r rest => rfl
  rw [hres, List.range_succ, List.map_append]
  simp

/-- For an artifact spanning at least two calendar months, the aggregator
succeeds, emitting the return-labelled records of the dropped-resample
month list. -/
theorem aggregateSymbol_ok (s : String) (rows : List RawRow)
    (hspan : minMonth rows < maxMonth rows) :
    aggregateSymbol s rows =
      .ok (buildRecs s none ((List.range (maxMonth rows - minMonth rows)).map
        (fun k => monthBin rows (minMonth rows + k)))) := by
  have hne : rows ≠ [] := by
    intro hcon
    rw [hcon] at hspan
    simp [minMonth, maxMonth] at hspan
  have hdrop := resampleM_dropLast rows hne
  obtain ⟨k0, ktail, hk⟩ := List.exists_cons_of_ne_nil
    (l := List.range (maxMonth rows - minMonth rows)) (by
      intro hcon
      have hlen := congrArg List.length hcon
      simp only [List.length_range, List.length_nil] at hlen
      omega)
  simp only [aggregateSymbol]
  rw [hdrop, hk, List.map_cons]

/-- An artifact spanning at most one calendar month (or none) makes
line 326 raise: `.iloc[:-1,]` leaves zero rows and the length-1 return
column cannot be assigned to them. -/
theorem aggregateSymbol_single_month (s : String) (rows : List RawRow)
    (hflat : minMonth rows = maxMonth rows) :
    aggregateSymbol s rows = .error .lengthMismatch := by
  by_cases hne : rows = []
  · rw [hne]
    rfl
  · have hdrop := resampleM_dropLast rows hne
    have h0 : maxMonth rows - minMonth rows = 0 := by omega
    rw [h0] at hdrop
    simp only [List.range_zero, List.map_nil] at hdrop
    simp only [aggregateSymbol]
    rw [hdrop]

/-- C4 counterexample: an artifact whose observations all fall in one
calendar month leaves a 0-row frame after `.iloc[:-1,]`, and line 326
raises a length-mismatch `ValueError` instead of producing monthly
records. -/
theorem aggregateSymbol_one_month_raises :
    aggregateSymbol "A" oneMonthRows = .error .lengthMismatch ∧
    exceptOk (aggregateSymbol "A" oneMonthRows) = false :=
  ⟨rfl, rfl⟩

/-- Members of a `dateKey`-sorted list are chronologically at or before its
last element. -/
theorem dateKey_le_getLast :
    ∀ l : List RawRow, l.Pairwise (fun a b => dateKey a ≤ dateKey b) →
      ∀ x ∈ l, ∀ z, l.getLast? = some z → dateKey x ≤ dateKey z := by
  intro l
  induction l with
  | nil =>
    intro _ x hx
    exact absurd hx (List.not_mem_nil _)
  | cons a t ih =>
    intro hp x hx z hz
    cases t with
    | nil =>
      have hxa : x = a := by simpa using hx
      have hza : a = z := by simpa using hz
      subst hxa
      rw [hza]
    | cons b t2 =>
      have hz2 : (b :: t2).getLast? = some z := by
        rwa [List.getLast?_cons_cons] at hz
      have hzmem : z ∈ b :: t2 := by
        obtain ⟨hnn, hzl⟩ := List.mem_getLast?_eq_getLast (l := b :: t2) hz2
        rw [hzl]
        exact List.getLast_mem _
      rcases List.mem_cons.mp hx with hxa | hxt
      · subst hxa
        exact (List.pairwise_cons.mp hp).1 z hzmem
      · exact ih (List.pairwise_cons.mp hp).2 x hxt z hz2

/-- Under a sorted artifact, the row kept for a month bin is the
chronologically last row of that month. -/
theorem lastInMonth_chronological (rows : List RawRow)
    (hsorted : rows.Pairwise (fun a b => dateKey a ≤ dateKey b))
    (idx : Nat) (rr : RawRow) (h : lastInMonth rows idx = some rr) :
    ∀ r2 ∈ rows, monthIndex r2 = idx → dateKey r2 ≤ dateKey rr := by
  intro r2 hr2 hmonth
  have hsub : (rows.filter (fun r => monthIndex r == idx)).Pairwise
      (fun a b => dateKey a ≤ dateKey b) :=
    hsorted.sublist (List.filter_sublist _)
  have hmem : r2 ∈ rows.filter (fun r => monthIndex r == idx) :=
    List.mem_filter.mpr ⟨hr2, by simp [hmonth]⟩
  exact dateKey_le_getLast _ hsub r2 hmem rr h

/-- C4 amended: for a chronologically sorted raw artifact spanning at
least two calendar months, the aggregator succeeds and its output (i)
drops exactly the final resampled month — it is one month shorter than the
resampled series and never carries the last month's number; (ii) keeps,
for every output month with observations, the close price and volume of
that month's chronologically last row; (iii) gives the first output month
a null return; (iv) gives every later output month `t` with prices present
the monthly log return `ln(price_t / price_{t-1})`.  An artifact spanning
at most one calendar month instead raises the line-326 length-mismatch
error. -/
theorem aggregateSymbol_spec (s : String) (rows : List RawRow)
    (hsorted : rows.Pairwise (fun a b => dateKey a ≤ dateKey b))
    (hspan : minMonth rows < maxMonth rows) :
    (∃ out, aggregateSymbol s rows = .ok out ∧
      (out.length + 1 = (resampleM rows).length ∧
        ∀ rec ∈ out, rec.period < maxMonth rows) ∧
      (∀ rec ∈ out, ∀ rr, lastInMonth rows rec.period = some rr →
        rec.price = some rr.close ∧ rec.volume = some rr.volume ∧
        ∀ r2 ∈ rows, monthIndex r2 = rec.period → dateKey r2 ≤ dateKey rr) ∧
      (∀ rec0, out.head? = some rec0 → rec0.ret = none) ∧
      (∀ (i : Nat) (r1 r2 : CleanRec) (a b : ℚ),
        out[i]? = some r1 → out[i + 1]? = some r2 →
        r1.price = some a → r2.price = some b →
        r2.ret.map (fun q : ℚ => Real.log (q : ℝ)) =
          some (Real.log ((b : ℝ) / (a : ℝ))))) ∧
    (∀ (s2 : String) (rows2 : List RawRow), minMonth rows2 = maxMonth rows2 →
      aggregateSymbol s2 rows2 = .error .lengthMismatch) := by
  have hne : rows ≠ [] := by
    intro hcon
    rw [hcon] at hspan
    simp [minMonth, maxMonth] at hspan
  have hmemchar : ∀ rec ∈ buildRecs s none
      ((List.range (maxMonth rows - minMonth rows)).map
        (fun k => monthBin rows (minMonth rows + k))),
      ∃ k < maxMonth rows - minMonth rows, rec.period = minMonth rows + k ∧
        rec.price = (monthBin rows (minMonth rows + k)).price ∧
        rec.volume = (monthBin rows (minMonth rows + k)).volume := by
    intro rec hrec
    obtain ⟨mo, hmo, hper, hpr, hvol⟩ := buildRecs_mem s none _ rec hrec
    obtain ⟨k, hk, hbin⟩ := List.mem_map.mp hmo
    have hkr : k < maxMonth rows - minMonth rows := List.mem_range.mp hk
    refine ⟨k, hkr, ?_, ?_, ?_⟩
    · rw [hper, ← hbin, monthBin_idx]
    · rw [hpr, ← hbin]
    · rw [hvol, ← hbin]
  refine ⟨⟨buildRecs s none ((List.range (maxMonth rows - minMonth rows)).map
      (fun k => monthBin rows (minMonth rows + k))),
    aggregateSymbol_ok s rows hspan, ⟨?_, ?_⟩, ?_, ?_, ?_⟩,
    fun s2 rows2 h => aggregateSymbol_single_month s2 rows2 h⟩
  · rw [buildRecs_length, List.length_map, List.length_range]
    have hres : resampleM rows =
        (List.range (maxMonth rows - minMonth rows + 1)).map
          (fun k => monthBin rows (minMonth rows + k)) := by
      cases rows with
      | nil => exact absurd rfl hne
      | cons r rest => rfl
    rw [hres, List.length_map, List.length_range]
  · intro rec hrec
    obtain ⟨k, hk, hper, -, -⟩ := hmemchar rec hrec
    omega
  · intro rec hrec rr hlast
    obtain ⟨k, hk, hper, hpr, hvol⟩ := hmemchar rec hrec
    rw [hper] at hlast
    have hbin := monthBin_of_last rows (minMonth rows + k) rr hlast
    refine ⟨by rw [hpr, hbin], by rw [hvol, hbin], ?_⟩
    intro r2 hr2 hmonth
    exact lastInMonth_chronological rows hsorted (minMonth rows + k) rr hlast r2 hr2
      (by rw [← hper]; exact hmonth)
  · intro rec0 hrec0
    rcases hms : (List.range (maxMonth rows - minMonth rows)).map
        (fun k => monthBin rows (minMonth rows + k)) with _ | ⟨mo, rest⟩
    · rw [hms] at hrec0
      exact absurd hrec0 (by simp [buildRecs])
    · rw [hms] at hrec0
      have hhead : (buildRecs s none (mo :: rest)).head? =
          some { symbol := s, period := mo.idx, price := mo.price,
                 volume := mo.volume, ret := retOf none mo.price } := rfl
      rw [hhead] at hrec0
      have hr : rec0 = { symbol := s, period := mo.idx, price := mo.price,
                         volume := mo.volume, ret := retOf none mo.price } := by
        injection hrec0 with h
        exact h.symm
      rw [hr]
      show retOf none mo.price = none
      cases mo.price <;> rfl
  · intro i r1 r2 a b h1 h2 hpa hpb
    set ms := (List.range (maxMonth rows - minMonth rows)).map
      (fun k => monthBin rows (minMonth rows + k)) with hmsdef
    have hi : i < ms.length := by
      by_contra hcon
      have hnone : (buildRecs s none ms)[i]? = none := by
        apply List.getElem?_eq_none
        rw [buildRecs_length]
        omega
      rw [hnone] at h1
      exact Option.noConfusion h1
    have hi1 : i + 1 < ms.length := by
      by_contra hcon
      have hnone : (buildRecs s none ms)[i + 1]? = none := by
        apply List.getElem?_eq_none
        rw [buildRecs_length]
        omega
      rw [hnone] at h2
      exact Option.noConfusion h2
    have hmo1 : ms[i]? = some (ms.get ⟨i, hi⟩) := by
      rw [List.getElem?_eq_getElem hi]
      rfl
    have hmo2 : ms[i + 1]? = some (ms.get ⟨i + 1, hi1⟩) := by
      rw [List.getElem?_eq_getElem hi1]
      rfl
    have hrec2 := buildRecs_succ s ms i none (ms.get ⟨i, hi⟩) (ms.get ⟨i + 1, hi1⟩) hmo1 hmo2
    have hr2 : r2 = ⟨s, (ms.get ⟨i + 1, hi1⟩).idx, (ms.get ⟨i + 1, hi1⟩).price,
        (ms.get ⟨i + 1, hi1⟩).volume,
        retOf (ms.get ⟨i, hi⟩).price (ms.get ⟨i + 1, hi1⟩).price⟩ := by
      have heq := h2.symm.trans hrec2
      injection heq with h
    have hp1 : (ms.get ⟨i, hi⟩).price = some a := by
      have hmap := buildRecs_price s none ms i
      rw [h1, hmo1] at hmap
      simp only [Option.map_some'] at hmap
      injection hmap with h
      rw [← h]
      exact hpa
    have hp2 : (ms.get ⟨i + 1, hi1⟩).price = some b := by
      have := hpb
      rw [hr2] at this
      exact this
    rw [hr2]
    show (retOf (ms.get ⟨i, hi⟩).price (ms.get ⟨i + 1, hi1⟩).price).map
        (fun q : ℚ => Real.log (q : ℝ)) = some (Real.log ((b : ℝ) / (a : ℝ)))
    rw [hp1, hp2]
    simp [retOf, Rat.cast_div]

/-- Witness for C4's amended theorem at a concrete sorted four-month
artifact. -/
theorem aggregateSymbol_spec_witness :
    sampleRows.Pairwise (fun a b => dateKey a ≤ dateKey b) ∧
    minMonth sampleRows < maxMonth sampleRows ∧
    (∃ out, aggregateSymbol "A" sampleRows = .ok out ∧
      ∀ rec0, out.head? = some rec0 → rec0.ret = none) := by
  refine ⟨by decide, by decide, ?_⟩
  obtain ⟨out, hok, -, -, hhead, -⟩ :=
    (aggregateSymbol_spec "A" sampleRows (by decide) (by decide)).1
  exact ⟨out, hok, hhead⟩

/-! ## Claim C9 -/

/-- C9 counterexample: when no symbol of the universe has a raw artifact,
the aggregator does not complete — `pd.concat` of the empty frame list
raises — contradicting "missing artifacts never cause an error, including
when no symbol in the universe has an artifact". -/
theorem clean_no_artifact_raises :
    clean_stock_data ["AAPL"] emptyStore = .error .emptyConcat ∧
    exceptOk (clean_stock_data ["AAPL"] emptyStore) = false :=
  ⟨rfl, rfl⟩

/-- Helper: the symbol loop ignores universe entries without artifacts. -/
theorem cleanLoop_filter (store : String → Option (List RawRow)) :
    ∀ l : List String,
      cleanLoop store l = cleanLoop store (l.filter (fun t => (store t).isSome)) := by
  intro l
  induction l with
  | nil => rfl
  | cons a t ih =>
    cases hst : store a with
    | none => simp [cleanLoop, List.filter_cons, hst, ih]
    | some rows => simp [cleanLoop, List.filter_cons, hst, ih]

/-- Helper: when every artifact in the universe spans at least two
calendar months, the symbol loop completes with one frame per artifact. -/
theorem cleanLoop_ok (store : String → Option (List RawRow)) :
    ∀ l : List String,
      (∀ t rows, t ∈ l → store t = some rows → minMonth rows < maxMonth rows) →
      ∃ dfs, cleanLoop store l = .ok dfs ∧
        dfs.length = (l.filter (fun t => (store t).isSome)).length := by
  intro l
  induction l with
  | nil =>
    intro _
    exact ⟨[], rfl, rfl⟩
  | cons a t ih =>
    intro hsp
    obtain ⟨dfs, hdfs, hlen⟩ :=
      ih (fun t2 rows ht2 hr => hsp t2 rows (List.mem_cons_of_mem _ ht2) hr)
    cases hst : store a with
    | none =>
      refine ⟨dfs, ?_, ?_⟩
      · simp [cleanLoop, hst, hdfs]
      · rw [hlen, List.filter_cons]
        simp [hst]
    | some rows =>
      have hok := aggregateSymbol_ok a rows (hsp a rows (List.mem_cons_self _ _) hst)
      refine ⟨buildRecs a none ((List.range (maxMonth rows - minMonth rows)).map
        (fun k => monthBin rows (minMonth rows + k))) :: dfs, ?_, ?_⟩
      · simp [cleanLoop, hst, hok, hdfs]
      · rw [List.filter_cons]
        simp [hst, hlen]

/-- C9 amended: the aggregator silently skips universe symbols without raw
artifacts — its output equals that of the artifact-having subsequence of
the universe — and, provided some symbol has an artifact and every
existing artifact spans at least two calendar months, it completes with a
consolidated snapshot; it raises when no artifact exists (empty concat,
see the counterexample) or when some artifact spans at most one month
(line 326, see C4). -/
theorem clean_stock_data_skips_missing (univ : List String)
    (store : String → Option (List RawRow))
    (hsome : ∃ t, t ∈ univ ∧ (store t).isSome = true)
    (hspan : ∀ t rows, t ∈ univ → store t = some rows →
      minMonth rows < maxMonth rows) :
    clean_stock_data univ store =
      clean_stock_data (univ.filter (fun t => (store t).isSome)) store ∧
    exceptOk (clean_stock_data univ store) = true := by
  obtain ⟨dfs, hdfs, hlen⟩ := cleanLoop_ok store univ hspan
  obtain ⟨t0, ht0, hs0⟩ := hsome
  have hfne : univ.filter (fun t => (store t).isSome) ≠ [] :=
    List.ne_nil_of_mem (List.mem_filter.mpr ⟨ht0, hs0⟩)
  have hdne : dfs ≠ [] := by
    intro hcon
    rw [hcon] at hlen
    simp only [List.length_nil] at hlen
    have hpos := List.length_pos.mpr hfne
    omega
  obtain ⟨df0, dtail, hdfs2⟩ := List.exists_cons_of_ne_nil hdne
  constructor
  · simp only [clean_stock_data]
    rw [cleanLoop_filter store univ]
  · simp only [clean_stock_data]
    rw [hdfs, hdfs2]
    rfl

/-- Witness for C9's amended theorem: universe `[A, B]`, a four-month
artifact for `A` only — `B` is skipped and the run completes. -/
theorem clean_stock_data_skips_missing_witness :
    ("A" ∈ ["A", "B"] ∧ (sampleStore "A").isSome = true) ∧
    (clean_stock_data ["A", "B"] sampleStore =
      clean_stock_data ((["A", "B"] : List String).filter
        (fun t => (sampleStore t).isSome)) sampleStore ∧
    exceptOk (clean_stock_data ["A", "B"] sampleStore) = true) :=
  ⟨⟨by decide, by decide⟩,
   clean_stock_data_skips_missing ["A", "B"] sampleStore ⟨"A", by decide, by decide⟩
     (by
       intro t rows ht hrows
       by_cases hA : t = "A"
       · subst hA
         rw [show sampleStore "A" = some sampleRows from rfl] at hrows
         injection hrows with h
         subst h
         decide
       · rw [show sampleStore t = (if t = "A" then some sampleRows else none) from rfl,
             if_neg hA] at hrows
         exact Option.noConfusion hrows)⟩

/-! ## Claim C10 -/

theorem knownPts_coord_mem :
    ∀ (as : List ℚ) (bs : List (Option ℚ)) (p : ℚ × ℚ), p ∈ knownPts as bs → p.1 ∈ as := by
  intro as
  induction as with
  | nil =>
    intro bs p hp
    exact absurd hp (List.not_mem_nil _)
  | cons a as2 ih =>
    intro bs p hp
    cases bs with
    | nil => exact absurd hp (List.not_mem_nil _)
    | cons b bs2 =>
      cases b with
      | none => exact List.mem_cons_of_mem _ (ih bs2 p hp)
      | some q =>
        rcases List.mem_cons.mp hp with h1 | h2
        · rw [h1]
          exact List.mem_cons_self _ _
        · exact List.mem_cons_of_mem _ (ih bs2 p h2)

theorem getLast?_mem_self {α : Type _} :
    ∀ (l : List α) (z : α), l.getLast? = some z → z ∈ l := by
  intro l z h
  obtain ⟨hnn, hzl⟩ := List.mem_getLast?_eq_getLast (Option.mem_def.mpr h)
  rw [hzl]
  exact List.getLast_mem _

/-- With the last dependent value missing, every known point lies strictly
left of the last independent value. -/
theorem knownPts_lt_last :
    ∀ (as : List ℚ) (bs : List (Option ℚ)), bs.length = as.length →
      as.Pairwise (· < ·) → bs.getLast? = some none →
      ∃ xl, as.getLast? = some xl ∧ ∀ p ∈ knownPts as bs, p.1 < xl := by
  intro as
  induction as with
  | nil =>
    intro bs hlen _ hlast
    have hbs : bs = [] := List.length_eq_zero.mp hlen
    rw [hbs] at hlast
    exact absurd hlast (by simp)
  | cons a as2 ih =>
    intro bs hlen hp hlast
    cases bs with
    | nil => exact absurd hlast (by simp)
    | cons b bs2 =>
      cases as2 with
      | nil =>
        have hbs2 : bs2 = [] := List.length_eq_zero.mp (by simpa using hlen)
        subst hbs2
        have hb : b = none := by simpa using hlast
        subst hb
        exact ⟨a, rfl, by intro p hp2; exact absurd hp2 (List.not_mem_nil _)⟩
      | cons a2 as3 =>
        have hbs2ne : bs2 ≠ [] := by
          intro hcon
          rw [hcon] at hlen
          simp at hlen
        obtain ⟨b2, bs3, hbs2⟩ := List.exists_cons_of_ne_nil hbs2ne
        subst hbs2
        have hlast2 : (b2 :: bs3).getLast? = some none := by
          rwa [List.getLast?_cons_cons] at hlast
        obtain ⟨xl, hxl, hall⟩ := ih (b2 :: bs3) (by simpa using hlen)
          (List.pairwise_cons.mp hp).2 hlast2
        have hxlmem : xl ∈ a2 :: as3 := getLast?_mem_self _ _ hxl
        refine ⟨xl, by rwa [List.getLast?_cons_cons], ?_⟩
        intro p hpmem
        cases b with
        | none => exact hall p hpmem
        | some q =>
          rcases List.mem_cons.mp hpmem with h1 | h2
          · rw [h1]
            exact (List.pairwise_cons.mp hp).1 xl hxlmem
          · exact hall p h2

theorem interpAt_below (pts : List (ℚ × ℚ)) (xv : ℚ) (hne : pts ≠ [])
    (hlt : ∀ p ∈ pts, xv < p.1) : interpAt pts xv = .error .belowRange := by
  cases pts with
  | nil => exact absurd rfl hne
  | cons p0 rest =>
    obtain ⟨x0, y0⟩ := p0
    show (if xv < x0 then Except.error InterpError.belowRange else interpGo x0 y0 rest xv) = _
    rw [if_pos (hlt (x0, y0) (List.mem_cons_self _ _))]

theorem interpGo_above :
    ∀ (rest : List (ℚ × ℚ)) (x0 y0 xv : ℚ), (∀ p ∈ rest, p.1 < xv) →
      interpGo x0 y0 rest xv = .error .aboveRange := by
  intro rest
  induction rest with
  | nil => intro x0 y0 xv _; rfl
  | cons p1 rest2 ih =>
    intro x0 y0 xv hlt
    obtain ⟨x1, y1⟩ := p1
    show (if xv ≤ x1 then Except.ok (interpSeg x0 y0 x1 y1 xv)
          else interpGo x1 y1 rest2 xv) = _
    rw [if_neg (by push_neg; exact hlt (x1, y1) (List.mem_cons_self _ _))]
    exact ih x1 y1 xv (fun p hp => hlt p (List.mem_cons_of_mem _ hp))

theorem interpAt_above (pts : List (ℚ × ℚ)) (xv : ℚ) (hne : pts ≠ [])
    (hlt : ∀ p ∈ pts, p.1 < xv) : interpAt pts xv = .error .aboveRange := by
  cases pts with
  | nil => exact absurd rfl hne
  | cons p0 rest =>
    obtain ⟨x0, y0⟩ := p0
    show (if xv < x0 then Except.error InterpError.belowRange else interpGo x0 y0 rest xv) = _
    rw [if_neg (by push_neg; exact le_of_lt (hlt (x0, y0) (List.mem_cons_self _ _)))]
    exact interpGo_above rest x0 y0 xv (fun p hp => hlt p (List.mem_cons_of_mem _ hp))

/-- A single failing element makes the whole `mapM` fail. -/
theorem mapM_error {α β ε : Type _} (f : α → Except ε β) :
    ∀ l : List α, (∃ a ∈ l, exceptOk (f a) = false) → exceptOk (l.mapM f) = false := by
  intro l
  induction l with
  | nil =>
    rintro ⟨a, ha, -⟩
    exact absurd ha (List.not_mem_nil _)
  | cons c t ih =>
    rintro ⟨a, ha, herr⟩
    rw [List.mapM_cons]
    cases hfc : f c with
    | error e => rfl
    | ok b =>
      rcases List.mem_cons.mp ha with h1 | h2
      · rw [h1, hfc] at herr
        exact absurd herr (by simp [exceptOk])
      · have hrec := ih ⟨a, h2, herr⟩
        cases hmt : t.mapM f with
        | error e2 => rfl
        | ok bs =>
          rw [hmt] at hrec
          exact absurd hrec (by simp [exceptOk])

theorem filterMap_toNumeric_length :
    ∀ l : List PdVal, (∀ v ∈ l, (toNumeric v).isSome = true) →
      (l.filterMap toNumeric).length = l.length := by
  intro l
  induction l with
  | nil => intro _; rfl
  | cons a t ih =>
    intro h
    obtain ⟨q, hq⟩ := Option.isSome_iff_exists.mp (h a (List.mem_cons_self _ _))
    rw [List.filterMap_cons, hq]
    simp only [List.length_cons]
    rw [ih (fun v hv => h v (List.mem_cons_of_mem _ hv))]

/-- C10: (i) with a complete, strictly increasing independent axis, the
function raises whenever the first or the last dependent value is missing
or non-numeric (filling there would extrapolate); (ii) non-numeric
dependent entries behave exactly like explicit NaNs — replacing each by NaN
leaves the result unchanged (they are coerced and, in the interior, filled
by the same linear interpolation). -/
theorem interpolate_missing_spec (x y : List PdVal)
    (hxnum : ∀ v ∈ x, (toNumeric v).isSome = true)
    (hsorted : (x.filterMap toNumeric).Pairwise (· < ·))
    (hlen : y.length = x.length)
    (hend : (∃ v, y.head? = some v ∧ toNumeric v = none) ∨
            (∃ v, y.getLast? = some v ∧ toNumeric v = none)) :
    exceptOk (interpolate_missing x y) = false ∧
    (∀ x2 y2 : List PdVal,
      interpolate_missing x2 y2 = interpolate_missing x2 (y2.map coerceToNan)) := by
  constructor
  · have hcheck : (x.map toNumeric).any (fun o => o.isNone) = false := by
      rw [List.any_eq_false]
      intro o ho
      obtain ⟨v, hv, hvo⟩ := List.mem_map.mp ho
      rw [← hvo]
      have := hxnum v hv
      cases htn : toNumeric v
      · rw [htn] at this
        exact absurd this (by simp)
      · simp
    rw [interpolate_missing, if_neg (by simp [hcheck])]
    by_cases hfew : (knownPts (x.filterMap toNumeric) (y.map toNumeric)).length < 2
    · rw [if_pos hfew]
      rfl
    · rw [if_neg hfew]
      have hptsne : knownPts (x.filterMap toNumeric) (y.map toNumeric) ≠ [] := by
        intro hcon
        rw [hcon] at hfew
        simp at hfew
      rcases hend with ⟨v, hv, hvn⟩ | ⟨v, hv, hvn⟩
      · -- first dependent value missing: evaluation at the first x errors
        have hyne : y ≠ [] := by
          intro hcon
          rw [hcon] at hv
          exact Option.noConfusion hv
        obtain ⟨v2, yrest, hy⟩ := List.exists_cons_of_ne_nil hyne
        have hv2 : v2 = v := by
          rw [hy] at hv
          simpa using hv
        subst hv2
        have hxne : x ≠ [] := by
          intro hcon
          rw [hcon, hy] at hlen
          simp at hlen
        obtain ⟨xv, xrest, hx⟩ := List.exists_cons_of_ne_nil hxne
        obtain ⟨q0, hq0⟩ := Option.isSome_iff_exists.mp
          (hxnum xv (by rw [hx]; exact List.mem_cons_self _ _))
        have hxs : x.filterMap toNumeric = q0 :: xrest.filterMap toNumeric := by
          rw [hx, List.filterMap_cons, hq0]
        have hys : y.map toNumeric = none :: yrest.map toNumeric := by
          rw [hy, List.map_cons, hvn]
        have hpts : knownPts (x.filterMap toNumeric) (y.map toNumeric) =
            knownPts (xrest.filterMap toNumeric) (yrest.map toNumeric) := by
          rw [hxs, hys]
          rfl
        have hlt : ∀ p ∈ knownPts (x.filterMap toNumeric) (y.map toNumeric),
            q0 < p.1 := by
          intro p hp
          rw [hpts] at hp
          have hcoord := knownPts_coord_mem _ _ p hp
          have hpair := hsorted
          rw [hxs] at hpair
          exact (List.pairwise_cons.mp hpair).1 p.1 hcoord
        apply mapM_error
        refine ⟨q0, ?_, ?_⟩
        · rw [hxs]
          exact List.mem_cons_self _ _
        · rw [interpAt_below _ q0 hptsne hlt]
          rfl
      · -- last dependent value missing: evaluation at the last x errors
        have hysl : (y.map toNumeric).getLast? = some none := by
          cases hyl : y.getLast? with
          | none =>
            rw [hyl] at hv
            exact Option.noConfusion hv
          | some v2 =>
            have hv2 : v2 = v := by
              rw [hyl] at hv
              injection hv
            subst hv2
            rw [List.getLast?_map, hyl, Option.map_some', hvn]
        obtain ⟨xl, hxl, hall⟩ := knownPts_lt_last (x.filterMap toNumeric)
          (y.map toNumeric)
          (by rw [List.length_map, filterMap_toNumeric_length x hxnum]; exact hlen)
          hsorted hysl
        apply mapM_error
        refine ⟨xl, getLast?_mem_self _ _ hxl, ?_⟩
        rw [interpAt_above _ xl hptsne hall]
        rfl
  · intro x2 y2
    have hy : (y2.map coerceToNan).map toNumeric = y2.map toNumeric := by
      induction y2 with
      | nil => rfl
      | cons a t ih =>
        simp only [List.map_cons]
        rw [ih]
        have ha : toNumeric (coerceToNan a) = toNumeric a := by
          cases a <;> rfl
        rw [ha]
    simp only [interpolate_missing]
    rw [hy]

/-- Witness for C10: x = [1,2,3] complete, y = [NaN, 12, 13] — the missing
first dependent value makes the call raise. -/
theorem interpolate_missing_spec_witness :
    (∀ v ∈ sampleInterpX, (toNumeric v).isSome = true) ∧
    (sampleInterpX.filterMap toNumeric).Pairwise (· < ·) ∧
    sampleInterpY.length = sampleInterpX.length ∧
    exceptOk (interpolate_missing sampleInterpX sampleInterpY) = false :=
  ⟨by decide, by decide, by decide,
   (interpolate_missing_spec sampleInterpX sampleInterpY (by decide) (by decide)
     (by decide) (Or.inl ⟨.nan, rfl, rfl⟩)).1⟩

end FinancialModels
